import Mathlib

/-!
# Verification of the pill-box controller (`final_v2.ino`)

Shallow embedding of the pure/state-passing core of the sketch:

* text utilities modelling `String::indexOf`, `String::substring`,
  `String::toInt` (= `atol`) and `String(int)` over `List Char`;
* the schedule (`parseSchedule`, `compareAlarms`, `scheduleNextAlarm`);
* the history log (`updateHistoryLog`, split into append and render);
* the BLE configuration write callback (`MyCallbacks::onWrite`) as a
  state transformer, plus the flag-consuming step of `loop()`;
* the alarm session engine (`enterAlarmMode`) as a discrete-time model:
  each busy-wait iteration advances time by exactly its `delay`
  (10 ms while ringing, 100 ms while snoozing) and every other
  operation is instantaneous.
-/

namespace Pilbx

/-! ## Text utilities over `List Char` -/

/-- Index of the first occurrence of `c`, or `none`.
Models Arduino `String::indexOf` (which returns `-1` for absent,
here `none`). -/
def idxOf? (c : Char) : List Char → Option Nat
  | [] => none
  | d :: ds => if d = c then some 0 else (idxOf? c ds).map Nat.succ

/-- Split on a separator character, keeping empty segments, exactly as the
manual `indexOf`/`substring` loops in `parseSchedule` and the final
segment after the last separator. -/
def splitOnChar (sep : Char) : List Char → List (List Char)
  | [] => [[]]
  | c :: rest =>
    match splitOnChar sep rest with
    | [] => [[c]]
    | t :: ts => if c = sep then [] :: t :: ts else (c :: t) :: ts

/-- Digit-accumulating loop of `atol`: consume leading digits into `acc`,
stop at the first non-digit. -/
def atoiDigits : List Char → Int → Int
  | [], acc => acc
  | c :: cs, acc =>
    if c.isDigit then atoiDigits cs (acc * 10 + ((c.toNat : Int) - 48)) else acc

/-- Model of Arduino `String::toInt` (= C `atol`): skip leading whitespace,
optional sign, then leading digits; `0` when no digits. -/
def atoi (cs : List Char) : Int :=
  let t := cs.dropWhile Char.isWhitespace
  if t.head? = some '-' then - atoiDigits t.tail 0
  else if t.head? = some '+' then atoiDigits t.tail 0
  else atoiDigits t 0

/-- Value of an all-digit character list, most significant first. -/
def digitsVal (ds : List Char) : Int :=
  ds.foldl (fun acc c => acc * 10 + ((c.toNat : Int) - 48)) 0

/-- The payload is a plain decimal integer string with value `v`:
an optional leading minus sign followed by one or more digits. -/
def IsDecimalIntStr (cs : List Char) (v : Int) : Prop :=
  if cs.head? = some '-' then
    cs.tail ≠ [] ∧ (∀ d ∈ cs.tail, d.isDigit = true) ∧ v = - digitsVal cs.tail
  else cs ≠ [] ∧ (∀ d ∈ cs, d.isDigit = true) ∧ v = digitsVal cs

instance (cs : List Char) (v : Int) : Decidable (IsDecimalIntStr cs v) := by
  unfold IsDecimalIntStr
  infer_instance

/-- Decimal rendering of an integer; models `String(int)`. -/
def intRepr (v : Int) : List Char :=
  if v < 0 then '-' :: (Nat.repr v.natAbs).data else (Nat.repr v.toNat).data

/-- Lemma: `atoiDigits` over an all-digit list is the digit fold. -/
theorem atoiDigits_all_digits :
    ∀ (ds : List Char) (acc : Int), (∀ c ∈ ds, c.isDigit = true) →
      atoiDigits ds acc = ds.foldl (fun a c => a * 10 + ((c.toNat : Int) - 48)) acc
  | [], _, _ => rfl
  | c :: ds, acc, h => by
    have hc : c.isDigit = true := h c (List.mem_cons_self ..)
    simp only [atoiDigits, hc, if_true, List.foldl_cons]
    exact atoiDigits_all_digits ds _ (fun d hd => h d (List.mem_cons_of_mem _ hd))

/-- On a decimal integer string, the `atol` model returns its value. -/
theorem atoi_of_decimal (cs : List Char) (v : Int) (h : IsDecimalIntStr cs v) :
    atoi cs = v := by
  unfold IsDecimalIntStr at h
  match cs with
  | [] =>
    rw [if_neg (by simp)] at h
    exact absurd rfl h.1
  | c :: cs' =>
    by_cases hcm : c = '-'
    · subst hcm
      rw [if_pos (by rfl)] at h
      obtain ⟨hne, hdig, hv⟩ := h
      have hdrop : ('-' :: cs').dropWhile Char.isWhitespace = '-' :: cs' := by
        rw [List.dropWhile_cons_of_neg]
        decide
      simp only [List.tail_cons] at hdig hv
      simp only [atoi, hdrop, List.head?_cons, List.tail_cons]
      simp only [if_true]
      rw [atoiDigits_all_digits cs' 0 hdig, hv, digitsVal]
    · rw [if_neg (by simpa using hcm)] at h
      obtain ⟨hne, hdig, hv⟩ := h
      have hc : c.isDigit = true := hdig c (List.mem_cons_self ..)
      have hcw : ¬ c.isWhitespace = true := by
        intro hw
        have hnd : ¬ c.isDigit = true := by
          revert hw
          simp only [Char.isWhitespace, Bool.or_eq_true, decide_eq_true_eq]
          rintro (((h | h) | h) | h) <;> (subst h; decide)
        exact hnd hc
      have hdrop : (c :: cs').dropWhile Char.isWhitespace = c :: cs' :=
        List.dropWhile_cons_of_neg hcw
      have hcp : ¬ c = '+' := by
        intro hcon; rw [hcon] at hc; revert hc; decide
      simp only [atoi, hdrop, List.head?_cons, Option.some.injEq, if_neg hcm, if_neg hcp]
      rw [atoiDigits_all_digits _ 0 hdig, hv, digitsVal]

/-! ## History log (`updateHistoryLog`, lines 173-180)

`updateHistoryLog(timeStr, result)` builds the entry `timeStr + " " + result`,
pushes it, evicts index 0 when the size exceeds 20, and re-renders the
BLE history mirror.  We split it into the entry constructor, the append
step, and the renderer. -/

/-- Models `String entry = timeStr + " " + result;`. -/
def mkEntry (timeStr result : List Char) : List Char :=
  timeStr ++ [' '] ++ result

/-- Models `historyEntries.push_back(entry); if (historyEntries.size() > 20)
historyEntries.erase(historyEntries.begin());`. -/
def appendHistory (log : List (List Char)) (entry : List Char) : List (List Char) :=
  let l := log ++ [entry]
  if 20 < l.length then l.drop 1 else l

/-- Models the render: `String fullLog = ...; for (s : historyEntries)
fullLog += s + newline;` with the fixed header. -/
def renderHistory (log : List (List Char)) : List Char :=
  log.foldl (fun acc s => acc ++ s ++ '\n' :: []) ("Log History:\n".data)

/-! ## Schedule (`parseSchedule`, `compareAlarms`, `scheduleNextAlarm`) -/

/-- Models `struct AlarmTime` with `int hour; int minute;`. -/
structure AlarmTime where
  hour : Int
  minute : Int
deriving DecidableEq

/-- Source `compareAlarms` (lines 109-112): strict lexicographic less-than used
as the `std::sort` comparator. -/
def compareAlarms (a b : AlarmTime) : Bool :=
  if a.hour = b.hour then decide (a.minute < b.minute) else decide (a.hour < b.hour)

/-- Lexicographic strict order on `(hour, minute)` as a proposition. -/
def timeLtP (a b : AlarmTime) : Prop :=
  a.hour < b.hour ∨ (a.hour = b.hour ∧ a.minute < b.minute)

instance : DecidableRel timeLtP := fun a b => by
  unfold timeLtP
  infer_instance

/-- Reflexive closure of the comparator: `timeLe a b ↔ ¬ compareAlarms b a`.
`std::sort` with a strict weak order sorts w.r.t. this relation. -/
def timeLe (a b : AlarmTime) : Prop :=
  a.hour < b.hour ∨ (a.hour = b.hour ∧ a.minute ≤ b.minute)

instance : DecidableRel timeLe := fun a b => by
  unfold timeLe
  infer_instance

instance : IsTotal AlarmTime timeLe :=
  ⟨fun a b => by unfold timeLe; omega⟩

instance : IsTrans AlarmTime timeLe :=
  ⟨fun a b c h₁ h₂ => by unfold timeLe at *; omega⟩

theorem compareAlarms_iff (a b : AlarmTime) : compareAlarms a b = true ↔ timeLtP a b := by
  unfold compareAlarms timeLtP
  by_cases h : a.hour = b.hour <;> simp [h] <;> try omega

theorem timeLe_iff_not_lt (a b : AlarmTime) : timeLe a b ↔ ¬ timeLtP b a := by
  unfold timeLe timeLtP
  omega

/-- Models `std::sort(alarms.begin(), alarms.end(), compareAlarms)`: since ties of
the strict comparator are literally equal `AlarmTime` values, the sorted
permutation is unique and insertion sort computes exactly it. -/
def sortAlarms (alarms : List AlarmTime) : List AlarmTime :=
  List.insertionSort timeLe alarms

/-- One token of the schedule string (loop body of `parseSchedule`):
`int s = t.indexOf(':'); if (s > 0) alarms.push_back({ t.substring(0, s).toInt(),
t.substring(s + 1).toInt() });` -/
def parseToken (t : List Char) : Option AlarmTime :=
  match idxOf? ':' t with
  | some s => if 0 < s then some ⟨atoi (t.take s), atoi (t.drop (s + 1))⟩ else none
  | none => none

/-- Source `parseSchedule` (lines 115-128): split the text on commas (the manual
`indexOf`/`substring` loop, including the final segment) and keep the
tokens containing a `':'` at a positive index. -/
def parseSchedule (data : List Char) : List AlarmTime :=
  (splitOnChar ',' data).filterMap parseToken

/-- Models `a.hour > now.hour() || (a.hour == now.hour() && a.minute > now.minute())`
(line 144). -/
def isAfterNow (now a : AlarmTime) : Bool :=
  decide (now.hour < a.hour) || (decide (a.hour = now.hour) && decide (now.minute < a.minute))

/-- Source `scheduleNextAlarm` (lines 131-171), as a pure function of the alarm
list and the clock's current `(hour, minute)`.  The return value models
the arming side effect on the DS3231: `none` = `disableAlarm(1)` (trigger
left disarmed, display "No Alarms"); `some (nextDay, a)` = `setAlarm1` armed
for alarm `a`, today when `nextDay = false` and on the following calendar
day when `nextDay = true` (the `now + TimeSpan(1,0,0,0)` branch). -/
def scheduleNextAlarm (alarms : List AlarmTime) (now : AlarmTime) :
    Option (Bool × AlarmTime) :=
  match sortAlarms alarms with
  | [] => none
  | a0 :: rest =>
    match (a0 :: rest).find? (isAfterNow now) with
    | some a => some (false, a)
    | none => some (true, a0)

theorem isAfterNow_iff (now a : AlarmTime) : isAfterNow now a = true ↔ timeLtP now a := by
  unfold isAfterNow timeLtP
  simp only [Bool.or_eq_true, Bool.and_eq_true, decide_eq_true_eq]
  omega

/-! ## Configuration channel (`MyCallbacks::onWrite`, lines 73-107) and
the flag-consuming step of `loop()` (lines 437-453)

The state collects the globals touched by the BLE write callback and by
`loop()`'s configuration handling: the persisted `Preferences` values, the
in-memory settings (`currentVolume`, `use12hr`), the in-memory schedule
(`alarms`), the BLE read-back mirrors (`setValue` of each characteristic),
and the pending-update flags. -/

structure SysState where
  prefsSsid : List Char
  prefsPass : List Char
  prefsSched : List Char
  prefsVol : Int
  prefs12h : Bool
  currentVolume : Int
  use12hr : Bool
  alarms : List AlarmTime
  schedMirror : List Char
  volMirror : List Char
  confMirror : List Char
  wifiCredsUpdated : Bool
  scheduleUpdated : Bool
  configUpdated : Bool
deriving DecidableEq

/-- The four writable BLE characteristics (by UUID). -/
inductive Target where
  | wifi
  | sched
  | vol
  | conf
deriving DecidableEq

/-- Arduino `constrain(v, lo, hi)` = `(v < lo) ? lo : ((v > hi) ? hi : v)`. -/
def constrainInt (v lo hi : Int) : Int :=
  if v < lo then lo else if hi < v then hi else v

/-- Source `MyCallbacks::onWrite` (lines 73-107) as a state transformer.
Empty payloads are dropped by the `data.length() > 0` guard.

* wifi: split on the first comma; only applied when the comma index is
  positive; persists ssid/pass and raises `wifiCredsUpdated`.
* sched: persists the raw text, mirrors it, raises `scheduleUpdated`
  (the in-memory `alarms` are re-parsed later by `loop()`).
* vol: `constrain(data.toInt(), 0, 255)` is applied to `currentVolume`
  immediately, persisted, and mirrored (the `ledcWrite` beep is a pure
  hardware effect and is not part of the state).
* conf: `"12H"`/`"24H"` set `use12hr`; any other payload leaves it as is;
  the (possibly unchanged) value is persisted and mirrored and
  `configUpdated` is raised unconditionally. -/
def onWrite (t : Target) (data : List Char) (s : SysState) : SysState :=
  if data = [] then s
  else
    match t with
    | .wifi =>
      match idxOf? ',' data with
      | some k =>
        if 0 < k then
          { s with
            prefsSsid := data.take k
            prefsPass := data.drop (k + 1)
            wifiCredsUpdated := true }
        else s
      | none => s
    | .sched =>
      { s with prefsSched := data, schedMirror := data, scheduleUpdated := true }
    | .vol =>
      let cv := constrainInt (atoi data) 0 255
      { s with currentVolume := cv, prefsVol := cv, volMirror := intRepr cv }
    | .conf =>
      let u :=
        if data = "12H".data then true
        else if data = "24H".data then false
        else s.use12hr
      { s with
        use12hr := u
        prefs12h := u
        confMirror := if u then "12H".data else "24H".data
        configUpdated := true }

/-- Step 2 of `loop()` (lines 437-453): consume the pending-update flags.
`syncTimeWithNTP`/`scheduleNextAlarm`/display refresh act on hardware and
are not part of this state; the schedule flag re-parses the persisted
text into the in-memory `alarms`. -/
def loopConfigStep (s : SysState) : SysState :=
  let s1 := if s.wifiCredsUpdated then { s with wifiCredsUpdated := false } else s
  let s2 :=
    if s1.scheduleUpdated then
      { s1 with scheduleUpdated := false, alarms := parseSchedule s1.prefsSched }
    else s1
  if s2.configUpdated then { s2 with configUpdated := false } else s2

/-! ## Alarm session engine (`enterAlarmMode`, lines 182-295)

Discrete-time model: `millis() - sessionStart` is the variable `t`
(milliseconds since session entry), each busy-wait iteration advances `t`
by exactly its `delay` (10 ms in the ringing loop, 100 ms in the snooze
loop) and all other statements take zero time.  `sensor t = true` models
`digitalRead(HALL_SENSOR_PIN) == LOW` (confirmation active) at instant
`t`.  Buzzer/LED/LCD writes are pure hardware effects and do not appear
in the state. -/

/-- Models `const unsigned long RING_DURATION = 60000;`. -/
def RING_DURATION : Nat := 60000

/-- Models `const unsigned long SNOOZE_DURATION = 300000;`. -/
def SNOOZE_DURATION : Nat := 300000

/-- Models `const unsigned long TOTAL_WINDOW = 900000;`. -/
def TOTAL_WINDOW : Nat := 900000

/-- Number of sensor samples in one ringing phase: the loop
`while (millis() - ringStart < RING_DURATION) { ...; delay(10); }`
samples at offsets `0, 10, ..., 59990`. -/
def ringSamples : Nat := RING_DURATION / 10

/-- Number of sensor samples in one full snooze phase: the loop
`while (millis() - snoozeStart < SNOOZE_DURATION) { ...; delay(100); }`
samples at offsets `0, 100, ..., 299900`. -/
def snoozeSamples : Nat := SNOOZE_DURATION / 100

/-- First instant among `t, t+step, ..., t+step*(n-1)` at which the sensor
reads active, if any.  Models the per-iteration
`if (digitalRead(HALL_SENSOR_PIN) == LOW)` check of a busy-wait loop. -/
def firstHitN (sensor : Nat → Bool) (t step : Nat) : Nat → Option Nat
  | 0 => none
  | n + 1 => if sensor t then some t else firstHitN sensor (t + step) step n

/-- Result of one snooze phase (lines 250-270). -/
inductive SnoozeRes where
  | taken (t : Nat)
  | timedOut (t : Nat)
  | done (t : Nat)
deriving DecidableEq

/-- The snooze loop body from instant `t` with `n` iterations left:
check the sensor (success exits with `taken`), then the total timeout
`millis() - sessionStart >= TOTAL_WINDOW` (exits with `timedOut`), then
`delay(100)`.  Exhausting the loop condition gives `done` at the final
instant. -/
def snoozeLoop (sensor : Nat → Bool) (t : Nat) : Nat → SnoozeRes
  | 0 => .done t
  | n + 1 =>
    if sensor t then .taken t
    else if TOTAL_WINDOW ≤ t then .timedOut t
    else snoozeLoop sensor (t + 100) n

/-- The outer 15-minute loop (lines 196-271), `fuel` bounding the number
of ring/snooze cycles (each full cycle advances `t` by exactly
`RING_DURATION + SNOOZE_DURATION = 360000`, so 3 cycles always reach the
`TOTAL_WINDOW` exit; `outerLoop_fuel_irrel` below shows any sufficient
fuel computes the same result).  Returns `(pillTaken, millis at
end_session)`. -/
def outerLoop (sensor : Nat → Bool) : Nat → Nat → Bool × Nat
  | 0, t => (false, t)
  | fuel + 1, t =>
    if t < TOTAL_WINDOW then
      match firstHitN sensor t 10 ringSamples with
      | some u => (true, u)
      | none =>
        -- ring phase ended silently at t + RING_DURATION (lines 236-240)
        if TOTAL_WINDOW ≤ t + RING_DURATION then (false, t + RING_DURATION)
        else
          match snoozeLoop sensor (t + RING_DURATION) snoozeSamples with
          | .taken u => (true, u)
          | .timedOut u => (false, u)
          | .done t2 => outerLoop sensor fuel t2
    else (false, t)

/-- Session outcome recorded into the history log. -/
inductive Outcome where
  | TAKEN
  | MISSED
deriving DecidableEq

/-- Source `enterAlarmMode` (lines 182-295): run the session from `t = 0`;
`status` is `TAKEN` iff some sensor sample was active, and the second
component is the instant at which `end_session` is reached. -/
def enterAlarmMode (sensor : Nat → Bool) : Outcome × Nat :=
  (if (outerLoop sensor 3 0).1 then .TAKEN else .MISSED, (outerLoop sensor 3 0).2)

/-! ## Theorems: History Log (C5, C7) -/

/-- Helper: appending below capacity is a plain tail append. -/
theorem appendHistory_of_lt (log : List (List Char)) (e : List Char)
    (h : log.length < 20) : appendHistory log e = log ++ [e] := by
  unfold appendHistory
  rw [if_neg]
  simp
  omega

/-- Helper: folding at most 20 appends from a short prefix never evicts. -/
theorem foldl_appendHistory_short :
    ∀ (es : List (List Char)) (log : List (List Char)),
      log.length + es.length ≤ 20 → List.foldl appendHistory log es = log ++ es
  | [], log, _ => by simp
  | e :: es, log, h => by
    rw [List.foldl_cons, appendHistory_of_lt log e (by simp at h; omega),
      foldl_appendHistory_short es (log ++ [e]) (by simp at h ⊢; omega)]
    simp

/-- C5: after every append the History Log holds at most 20 entries;
appending when 20 are present evicts exactly index 0; appending below
capacity only adds at the tail (no other removal or mutation); after 21
appends from empty, the log is exactly the last 20 entries, so the first
appended entry is gone (at its position) and the 21st is the tail. -/
theorem history_capped_at_20 :
    (∀ (log : List (List Char)) (e : List Char),
      log.length ≤ 20 → (appendHistory log e).length ≤ 20) ∧
    (∀ (log : List (List Char)) (e : List Char),
      log.length < 20 → appendHistory log e = log ++ [e]) ∧
    (∀ (log : List (List Char)) (e : List Char),
      log.length = 20 → appendHistory log e = log.tail ++ [e]) ∧
    (∀ es : List (List Char),
      es.length = 21 → List.foldl appendHistory [] es = es.tail) := by
  refine ⟨?_, appendHistory_of_lt, ?_, ?_⟩
  · intro log e h
    simp only [appendHistory]
    by_cases hl : 20 < (log ++ [e]).length
    · rw [if_pos hl]
      simp
      exact h
    · rw [if_neg hl]
      simp at hl ⊢
      omega
  · intro log e h
    simp only [appendHistory]
    rw [if_pos (by simp; omega), List.drop_append_of_le_length (by omega)]
    rw [List.drop_one]
  · intro es h
    rcases es.eq_nil_or_concat with rfl | ⟨front, last, rfl⟩
    · simp at h
    · rw [List.concat_eq_append] at h ⊢
      have hf : front.length = 20 := by
        simp at h
        omega
      have hfront : List.foldl appendHistory [] front = front :=
        (foldl_appendHistory_short front [] (by simp [hf]))
      have hne : front ≠ [] := by
        intro hcon
        rw [hcon] at hf
        simp at hf
      rw [List.foldl_append, hfront, List.foldl_cons, List.foldl_nil]
      simp only [appendHistory]
      rw [if_pos (by simp [hf])]
      rw [List.drop_append_of_le_length (by omega), List.drop_one,
        List.tail_append_of_ne_nil hne]

/-- C5 witness: concrete instances of every hypothesis-bearing conjunct. -/
theorem history_capped_at_20_witness :
    (((List.range 21).map (fun i => [Char.ofNat (65 + i)])).length = 21) ∧
    (List.foldl appendHistory [] ((List.range 21).map (fun i => [Char.ofNat (65 + i)])) =
      ((List.range 21).map (fun i => [Char.ofNat (65 + i)])).tail) ∧
    (appendHistory [] "x".data = ["x".data]) :=
  ⟨by decide,
   history_capped_at_20.2.2.2 _ (by decide),
   history_capped_at_20.2.1 [] "x".data (by decide)⟩

/-- Helper: the render fold appends every entry followed by a newline. -/
theorem foldl_render :
    ∀ (log : List (List Char)) (acc : List Char),
      List.foldl (fun a s => a ++ s ++ '\n' :: []) acc log =
        acc ++ (log.map (fun s => s ++ '\n' :: [])).flatten
  | [], acc => by simp
  | e :: es, acc => by
    rw [List.foldl_cons, foldl_render es]
    simp

/-- Helper: `intercalate` of a non-empty list unfolded one step. -/
theorem intercalate_nl_cons_cons (x y : List Char) (ys : List (List Char)) :
    List.intercalate ('\n' :: []) (x :: y :: ys) =
      x ++ '\n' :: List.intercalate ('\n' :: []) (y :: ys) := by
  simp [List.intercalate, List.intersperse_cons_cons]

/-- Helper: mapping "append a newline" and flattening appends one
newline per entry: joined by newline plus one trailing newline. -/
theorem flatten_map_newline :
    ∀ l : List (List Char), l ≠ [] →
      (l.map (fun s => s ++ '\n' :: [])).flatten =
        List.intercalate ('\n' :: []) l ++ '\n' :: []
  | [], h => absurd rfl h
  | [x], _ => by simp [List.intercalate]
  | x :: y :: ys, _ => by
    have ih := flatten_map_newline (y :: ys) (by simp)
    rw [List.map_cons, List.flatten_cons, ih, intercalate_nl_cons_cons]
    simp

/-- C7 counterexample: on a one-entry log, `render()` is NOT the header
followed by the entries joined by `"\n"` — it carries a trailing newline. -/
theorem render_not_plain_join :
    renderHistory ["[01/01 08:00] TAKEN".data] ≠
      "Log History:\n".data ++ List.intercalate ('\n' :: []) ["[01/01 08:00] TAKEN".data] := by
  decide

/-- C7 amended: `render()` returns `"Log History:\n"` followed by each
entry — formatted `"<timestamp> <outcome>"` by `mkEntry` — followed by
`"\n"`; i.e. the entries joined by `"\n"` with one trailing newline when
the log is non-empty, and the bare header for the empty log. -/
theorem render_header_joined_trailing_newline :
    (renderHistory [] = "Log History:\n".data) ∧
    (∀ entries : List (List Char × List Char), entries ≠ [] →
      renderHistory (entries.map (fun p => mkEntry p.1 p.2)) =
        "Log History:\n".data ++
          List.intercalate ('\n' :: [])
            (entries.map (fun p => p.1 ++ ' ' :: p.2)) ++ '\n' :: []) := by
  constructor
  · rfl
  · intro entries hne
    unfold renderHistory
    rw [foldl_render]
    have hm : entries.map (fun p => mkEntry p.1 p.2) =
        entries.map (fun p => p.1 ++ ' ' :: p.2) := by
      apply List.map_congr_left
      intro p _
      unfold mkEntry
      simp
    rw [hm]
    rw [flatten_map_newline _ (by simpa using hne)]
    simp

/-- C7 witness: the amended render shape at a concrete two-entry log. -/
theorem render_header_joined_trailing_newline_witness :
    ([("[01/01 08:00]".data, "TAKEN".data), ("[02/01 08:00]".data, "MISSED".data)] ≠
      ([] : List (List Char × List Char))) ∧
    (renderHistory
        ([("[01/01 08:00]".data, "TAKEN".data),
          ("[02/01 08:00]".data, "MISSED".data)].map (fun p => mkEntry p.1 p.2)) =
      "Log History:\n".data ++
        List.intercalate ('\n' :: [])
          ([("[01/01 08:00]".data, "TAKEN".data),
            ("[02/01 08:00]".data, "MISSED".data)].map (fun p => p.1 ++ ' ' :: p.2)) ++
        '\n' :: []) :=
  ⟨by decide,
   render_header_joined_trailing_newline.2 _ (by decide)⟩

/-! ## Theorems: Configuration Channel (C6, C9, C10, C4) -/

/-- A ready-made concrete state (the startup defaults of `setup()`:
volume 128, 24-hour mode, default schedule) for witnesses and
counterexamples. -/
def bootState : SysState where
  prefsSsid := []
  prefsPass := []
  prefsSched := "08:00,12:00,18:00".data
  prefsVol := 128
  prefs12h := false
  currentVolume := 128
  use12hr := false
  alarms := parseSchedule "08:00,12:00,18:00".data
  schedMirror := "08:00,12:00,18:00".data
  volMirror := "128".data
  confMirror := "24H".data
  wifiCredsUpdated := false
  scheduleUpdated := false
  configUpdated := false

/-- C6: a volume write whose payload is a decimal integer string of value
`v` (within the 32-bit range of `toInt`) stores and mirrors exactly `v`
clamped to `[0, 255]`. -/
theorem volume_write_clamped (data : List Char) (v : Int) (s : SysState)
    (h : IsDecimalIntStr data v) :
    ((onWrite .vol data s).currentVolume = max 0 (min v 255)) ∧
    ((onWrite .vol data s).prefsVol = max 0 (min v 255)) ∧
    ((onWrite .vol data s).volMirror = intRepr (max 0 (min v 255))) := by
  have hne : data ≠ [] := by
    unfold IsDecimalIntStr at h
    by_cases hh : data.head? = some '-'
    · rw [if_pos hh] at h
      intro hcon
      rw [hcon] at hh
      exact absurd hh (by simp)
    · rw [if_neg hh] at h
      exact h.1
  have hclamp : constrainInt (atoi data) 0 255 = max 0 (min v 255) := by
    rw [atoi_of_decimal data v h]
    unfold constrainInt
    omega
  unfold onWrite
  rw [if_neg hne]
  simp [hclamp]

/-- C6 witness: writes of `-5`, `300` and `128` yield stored/mirrored
values `0`, `255`, `128`. -/
theorem volume_write_clamped_witness :
    (IsDecimalIntStr "-5".data (-5) ∧
      (onWrite .vol "-5".data bootState).currentVolume = max 0 (min (-5) 255) ∧
      (onWrite .vol "-5".data bootState).prefsVol = max 0 (min (-5) 255) ∧
      (onWrite .vol "-5".data bootState).volMirror = intRepr (max 0 (min (-5) 255))) ∧
    (IsDecimalIntStr "300".data 300 ∧
      (onWrite .vol "300".data bootState).currentVolume = max 0 (min 300 255) ∧
      (onWrite .vol "300".data bootState).prefsVol = max 0 (min 300 255) ∧
      (onWrite .vol "300".data bootState).volMirror = intRepr (max 0 (min 300 255))) ∧
    (IsDecimalIntStr "128".data 128 ∧
      (onWrite .vol "128".data bootState).currentVolume = max 0 (min 128 255) ∧
      (onWrite .vol "128".data bootState).prefsVol = max 0 (min 128 255) ∧
      (onWrite .vol "128".data bootState).volMirror = intRepr (max 0 (min 128 255))) :=
  ⟨⟨by decide, volume_write_clamped "-5".data (-5) bootState (by decide)⟩,
   ⟨by decide, volume_write_clamped "300".data 300 bootState (by decide)⟩,
   ⟨by decide, volume_write_clamped "128".data 128 bootState (by decide)⟩⟩

/-- C9: a time-mode write whose payload is neither `"12H"` nor `"24H"`
(including the empty payload) leaves the in-memory mode, the persisted
mode and its read-back mirror unchanged.  The two consistency hypotheses
are the startup invariant (`setup()` loads `use12hr` from the persisted
value and mirrors it, and every write re-establishes both). -/
theorem timemode_invalid_write_ignored (data : List Char) (s : SysState)
    (h12 : data ≠ "12H".data) (h24 : data ≠ "24H".data)
    (hsync : s.prefs12h = s.use12hr)
    (hmirror : s.confMirror = if s.use12hr then "12H".data else "24H".data) :
    ((onWrite .conf data s).use12hr = s.use12hr) ∧
    ((onWrite .conf data s).prefs12h = s.prefs12h) ∧
    ((onWrite .conf data s).confMirror = s.confMirror) := by
  unfold onWrite
  by_cases hne : data = []
  · rw [if_pos hne]
    exact ⟨rfl, rfl, rfl⟩
  · rw [if_neg hne]
    simp only [if_neg h12, if_neg h24]
    refine ⟨by simp, by simp [hsync], by simp [hmirror]⟩

/-- C9 witness: an unrecognized token (`"12h"`, lowercase) leaves the
boot state's mode, persisted mode and mirror unchanged. -/
theorem timemode_invalid_write_ignored_witness :
    ("12h".data ≠ "12H".data ∧ "12h".data ≠ "24H".data ∧
      bootState.prefs12h = bootState.use12hr ∧
      bootState.confMirror = if bootState.use12hr then "12H".data else "24H".data) ∧
    ((onWrite .conf "12h".data bootState).use12hr = bootState.use12hr ∧
      (onWrite .conf "12h".data bootState).prefs12h = bootState.prefs12h ∧
      (onWrite .conf "12h".data bootState).confMirror = bootState.confMirror) :=
  ⟨⟨by decide, by decide, by decide, by decide⟩,
   timemode_invalid_write_ignored "12h".data bootState (by decide) (by decide)
     (by decide) (by decide)⟩

/-- C10: a credentials write whose payload starts with a comma (empty
ssid part) is ignored exactly like a payload with no comma at all: the
state — persisted ssid, persisted password and the re-sync flag included
— is completely unchanged in both cases. -/
theorem wifi_write_leading_comma_ignored (cs ds : List Char) (s : SysState)
    (hds : idxOf? ',' ds = none) :
    (onWrite .wifi (',' :: cs) s = s) ∧ (onWrite .wifi ds s = s) := by
  constructor
  · unfold onWrite
    rw [if_neg (by simp)]
    have hidx : idxOf? ',' (',' :: cs) = some 0 := by
      unfold idxOf?
      rw [if_pos rfl]
    simp only [hidx]
    rw [if_neg (by omega)]
  · unfold onWrite
    by_cases hne : ds = []
    · rw [if_pos hne]
    · rw [if_neg hne]
      simp only [hds]

/-- C10 witness: `",pass"` and `"nocomma"` both leave the boot state
untouched. -/
theorem wifi_write_leading_comma_ignored_witness :
    (idxOf? ',' "nocomma".data = none) ∧
    (onWrite .wifi (',' :: "pass".data) bootState = bootState) ∧
    (onWrite .wifi "nocomma".data bootState = bootState) :=
  ⟨by decide,
   (wifi_write_leading_comma_ignored "pass".data "nocomma".data bootState (by decide)).1,
   (wifi_write_leading_comma_ignored "pass".data "nocomma".data bootState (by decide)).2⟩

/-- C4 counterexample: the claim "no configuration write is ever applied
to the in-memory Settings while an alarm session is running (mirror
excepted)" is false — a volume write mutates the in-memory
`currentVolume` immediately inside the BLE callback (and likewise a
`"12H"` write mutates `use12hr`), with no involvement of the Controller
Loop's flag handling. -/
theorem write_applied_immediately_counterexample :
    ((onWrite .vol "200".data bootState).currentVolume ≠ bootState.currentVolume) ∧
    ((onWrite .conf "12H".data bootState).use12hr ≠ bootState.use12hr) := by
  decide

/-- C4 amended: only the schedule follows the flag-and-apply discipline.
A schedule write never touches the in-memory `alarms` (nor the in-memory
volume or time mode); the new text is parsed into `alarms` only when the
Controller Loop later consumes `scheduleUpdated`.  Volume and time-mode
writes, by contrast, are applied to the in-memory Settings immediately
in the write callback (see the counterexample). -/
theorem schedule_write_deferred (data : List Char) (s : SysState) :
    ((onWrite .sched data s).alarms = s.alarms) ∧
    ((onWrite .wifi data s).alarms = s.alarms) ∧
    ((onWrite .vol data s).alarms = s.alarms) ∧
    ((onWrite .conf data s).alarms = s.alarms) ∧
    (data ≠ [] →
      (loopConfigStep (onWrite .sched data s)).alarms = parseSchedule data) := by
  refine ⟨?_, ?_, ?_, ?_, ?_⟩
  · by_cases hne : data = [] <;> simp [onWrite, hne]
  · by_cases hne : data = []
    · simp [onWrite, hne]
    · match hidx : idxOf? ',' data with
      | some k => by_cases hk : 0 < k <;> simp [onWrite, hne, hidx, hk]
      | none => simp [onWrite, hne, hidx]
  · by_cases hne : data = [] <;> simp [onWrite, hne]
  · by_cases hne : data = [] <;> simp [onWrite, hne]
  · intro hne
    simp only [onWrite, if_neg hne]
    by_cases hw : s.wifiCredsUpdated <;>
      by_cases hc : s.configUpdated <;>
      simp [loopConfigStep, hw, hc]

/-- C4-amended witness: a concrete schedule write leaves `alarms` intact
until the loop's flag step parses the new text. -/
theorem schedule_write_deferred_witness :
    (("07:30".data : List Char) ≠ []) ∧
    ((onWrite .sched "07:30".data bootState).alarms = bootState.alarms) ∧
    ((loopConfigStep (onWrite .sched "07:30".data bootState)).alarms =
      parseSchedule "07:30".data) :=
  ⟨by decide,
   (schedule_write_deferred "07:30".data bootState).1,
   (schedule_write_deferred "07:30".data bootState).2.2.2.2 (by decide)⟩

/-! ## Theorems: Schedule parsing (C8) -/

/-- The alarm produced from one token (if any) has both fields in range. -/
def tokenInRange (t : List Char) : Prop :=
  match parseToken t with
  | some a => 0 ≤ a.hour ∧ a.hour ≤ 23 ∧ 0 ≤ a.minute ∧ a.minute ≤ 59
  | none => True

instance (t : List Char) : Decidable (tokenInRange t) := by
  unfold tokenInRange
  cases hp : parseToken t
  · exact isTrue trivial
  · infer_instance

/-- C8 counterexample: `parseSchedule` performs no range validation —
the text `"99:99"` is accepted and yields an `AlarmTime` with
`hour = 99 > 23` and `minute = 99 > 59` in the Schedule. -/
theorem parse_accepts_out_of_range :
    (⟨99, 99⟩ : AlarmTime) ∈ parseSchedule "99:99".data ∧
      ¬ ((99 : Int) ≤ 23) ∧ ¬ ((99 : Int) ≤ 59) := by
  decide

/-- C8 amended: the `hour ∈ 0..23`/`minute ∈ 0..59` invariant is NOT
enforced by `parseSchedule`; it holds exactly when every accepted token
of the text itself parses to in-range numbers — the parser adds no
out-of-range value of its own. -/
theorem parse_range_needs_valid_tokens (data : List Char)
    (h : ∀ t ∈ splitOnChar ',' data, tokenInRange t) :
    ∀ a ∈ parseSchedule data,
      0 ≤ a.hour ∧ a.hour ≤ 23 ∧ 0 ≤ a.minute ∧ a.minute ≤ 59 := by
  intro a ha
  rw [parseSchedule, List.mem_filterMap] at ha
  obtain ⟨t, ht, hp⟩ := ha
  have htr := h t ht
  simp only [tokenInRange, hp] at htr
  exact htr

/-- C8-amended witness: the default schedule text has only in-range
tokens, so all its parsed alarms are in range. -/
theorem parse_range_needs_valid_tokens_witness :
    (∀ t ∈ splitOnChar ',' "08:00,12:00,18:00".data, tokenInRange t) ∧
    (∀ a ∈ parseSchedule "08:00,12:00,18:00".data,
      0 ≤ a.hour ∧ a.hour ≤ 23 ∧ 0 ≤ a.minute ∧ a.minute ≤ 59) :=
  ⟨by decide, parse_range_needs_valid_tokens _ (by decide)⟩

/-! ## Theorems: next-occurrence computation (C1) -/

theorem timeLe_refl (a : AlarmTime) : timeLe a a := by
  unfold timeLe
  omega

theorem sortAlarms_sorted (l : List AlarmTime) : List.Sorted timeLe (sortAlarms l) :=
  List.sorted_insertionSort timeLe l

theorem mem_sortAlarms {a : AlarmTime} {l : List AlarmTime} :
    a ∈ sortAlarms l ↔ a ∈ l :=
  List.mem_insertionSort timeLe

theorem sortAlarms_eq_nil_iff {l : List AlarmTime} : sortAlarms l = [] ↔ l = [] := by
  constructor
  · intro h
    have hlen := (List.perm_insertionSort timeLe l).length_eq
    rw [sortAlarms] at h
    rw [h] at hlen
    exact List.eq_nil_of_length_eq_zero hlen.symm
  · intro h
    rw [h]
    rfl

/-- In a `timeLe`-sorted list, `find?` of the strictly-after-now test
returns a member strictly after `now` that is `timeLe`-minimal among the
after-now members; `none` means no member is after `now`. -/
theorem find_after_spec (now : AlarmTime) :
    ∀ l : List AlarmTime, List.Sorted timeLe l →
      (∀ a, l.find? (isAfterNow now) = some a →
        a ∈ l ∧ timeLtP now a ∧ ∀ b ∈ l, timeLtP now b → timeLe a b) ∧
      (l.find? (isAfterNow now) = none → ∀ b ∈ l, ¬ timeLtP now b)
  | [], _ => by
    constructor
    · intro a ha
      simp at ha
    · intro _ b hb
      simp at hb
  | x :: xs, hs => by
    have hx := List.rel_of_sorted_cons hs
    have ih := find_after_spec now xs hs.of_cons
    by_cases px : isAfterNow now x = true
    · rw [List.find?_cons_of_pos _ px]
      constructor
      · intro a ha
        obtain rfl : x = a := by injection ha
        refine ⟨List.mem_cons_self .., (isAfterNow_iff now x).mp px, ?_⟩
        intro b hb _
        rcases List.mem_cons.mp hb with rfl | hb
        · exact timeLe_refl b
        · exact hx b hb
      · intro hcon
        exact absurd hcon (by simp)
    · rw [List.find?_cons_of_neg _ px]
      have hnx : ¬ timeLtP now x := fun hc => px ((isAfterNow_iff now x).mpr hc)
      constructor
      · intro a ha
        obtain ⟨hmem, hlt, hmin⟩ := ih.1 a ha
        refine ⟨List.mem_cons_of_mem _ hmem, hlt, ?_⟩
        intro b hb hbn
        rcases List.mem_cons.mp hb with rfl | hb
        · exact absurd hbn hnx
        · exact hmin b hb hbn
      · intro hnone b hb
        rcases List.mem_cons.mp hb with rfl | hb
        · exact hnx
        · exact ih.2 hnone b hb

/-- C1: for a non-empty Schedule, `scheduleNextAlarm` arms an alarm that
is a member of the collection and — comparing `(hour, minute)`
lexicographically — strictly after `now` on the same day
(`nextDay = false`), minimal among the members after `now`; or, when no
member is after `now`, the `timeLe`-least member armed for the following
calendar day (`nextDay = true`).  For the empty Schedule it returns
`none`, i.e. the hardware trigger is left disarmed. -/
theorem nextOccurrence_strictly_future_minimal
    (alarms : List AlarmTime) (now : AlarmTime) :
    (alarms = [] → scheduleNextAlarm alarms now = none) ∧
    (alarms ≠ [] → ∃ d a, scheduleNextAlarm alarms now = some (d, a) ∧ a ∈ alarms ∧
      ((d = false ∧ timeLtP now a ∧ (∀ b ∈ alarms, timeLtP now b → timeLe a b)) ∨
       (d = true ∧ (∀ b ∈ alarms, ¬ timeLtP now b) ∧ (∀ b ∈ alarms, timeLe a b)))) := by
  constructor
  · intro h
    subst h
    rfl
  · intro hne
    have hsne : sortAlarms alarms ≠ [] := fun hc => hne (sortAlarms_eq_nil_iff.mp hc)
    match hsl : sortAlarms alarms with
    | [] => exact absurd hsl hsne
    | a0 :: rest =>
      have hsorted : List.Sorted timeLe (a0 :: rest) := hsl ▸ sortAlarms_sorted alarms
      have hmem : ∀ {b : AlarmTime}, b ∈ a0 :: rest ↔ b ∈ alarms := by
        intro b
        rw [← hsl, mem_sortAlarms]
      have hspec := find_after_spec now (a0 :: rest) hsorted
      have hrw : scheduleNextAlarm alarms now =
          (match (a0 :: rest).find? (isAfterNow now) with
           | some a => some (false, a)
           | none => some (true, a0)) := by
        unfold scheduleNextAlarm
        rw [hsl]
      match hf : (a0 :: rest).find? (isAfterNow now) with
      | some a =>
        obtain ⟨hamem, hlt, hmin⟩ := hspec.1 a hf
        refine ⟨false, a, ?_, hmem.mp hamem, Or.inl ⟨rfl, hlt, ?_⟩⟩
        · rw [hrw]
          simp only [hf]
        · intro b hb hbn
          exact hmin b (hmem.mpr hb) hbn
      | none =>
        refine ⟨true, a0, ?_, hmem.mp (List.mem_cons_self ..), Or.inr ⟨rfl, ?_, ?_⟩⟩
        · rw [hrw]
          simp only [hf]
        · intro b hb
          exact hspec.2 hf b (hmem.mpr hb)
        · intro b hb
          rcases List.mem_cons.mp (hmem.mpr hb) with rfl | hbr
          · exact timeLe_refl b
          · exact List.rel_of_sorted_cons hsorted b hbr

/-- C1 witness: the empty schedule disarms; on `{08:00, 12:00, 18:00}`
at `09:30` the computed next occurrence exists with the stated
properties (it is `12:00` same-day). -/
theorem nextOccurrence_strictly_future_minimal_witness :
    (scheduleNextAlarm [] ⟨9, 30⟩ = none) ∧
    (([⟨8, 0⟩, ⟨12, 0⟩, ⟨18, 0⟩] : List AlarmTime) ≠ []) ∧
    (∃ d a, scheduleNextAlarm [⟨8, 0⟩, ⟨12, 0⟩, ⟨18, 0⟩] ⟨9, 30⟩ = some (d, a) ∧
      a ∈ ([⟨8, 0⟩, ⟨12, 0⟩, ⟨18, 0⟩] : List AlarmTime) ∧
      ((d = false ∧ timeLtP ⟨9, 30⟩ a ∧
          (∀ b ∈ ([⟨8, 0⟩, ⟨12, 0⟩, ⟨18, 0⟩] : List AlarmTime),
            timeLtP ⟨9, 30⟩ b → timeLe a b)) ∨
       (d = true ∧ (∀ b ∈ ([⟨8, 0⟩, ⟨12, 0⟩, ⟨18, 0⟩] : List AlarmTime),
            ¬ timeLtP ⟨9, 30⟩ b) ∧
          (∀ b ∈ ([⟨8, 0⟩, ⟨12, 0⟩, ⟨18, 0⟩] : List AlarmTime), timeLe a b)))) :=
  ⟨(nextOccurrence_strictly_future_minimal [] ⟨9, 30⟩).1 rfl,
   by decide,
   (nextOccurrence_strictly_future_minimal [⟨8, 0⟩, ⟨12, 0⟩, ⟨18, 0⟩] ⟨9, 30⟩).2
     (by decide)⟩

/-! ## Session-engine lemmas -/

theorem ringSamples_eq : ringSamples = 6000 := rfl

theorem snoozeSamples_eq : snoozeSamples = 3000 := rfl

/-- A silent prefix: no sample among the first `n` is active. -/
theorem firstHitN_none (sensor : Nat → Bool) :
    ∀ (n t step : Nat), (∀ i, i < n → sensor (t + step * i) = false) →
      firstHitN sensor t step n = none
  | 0, _, _, _ => rfl
  | n + 1, t, step, h => by
    have h0 : sensor t = false := by simpa using h 0 (by omega)
    simp only [firstHitN, h0, Bool.false_eq_true, if_false]
    apply firstHitN_none sensor n (t + step) step
    intro i hi
    rw [show t + step + step * i = t + step * (i + 1) by ring]
    exact h (i + 1) (by omega)

/-- The first active sample is returned. -/
theorem firstHitN_hit (sensor : Nat → Bool) :
    ∀ (m n t step : Nat), m < n →
      (∀ i, i < m → sensor (t + step * i) = false) →
      sensor (t + step * m) = true →
      firstHitN sensor t step n = some (t + step * m)
  | _, 0, _, _, hmn, _, _ => absurd hmn (by omega)
  | 0, n + 1, t, step, _, _, hit => by
    have ht : sensor t = true := by simpa using hit
    simp [firstHitN, ht]
  | m + 1, n + 1, t, step, hmn, h0, hit => by
    have hs0 : sensor t = false := by simpa using h0 0 (by omega)
    simp only [firstHitN, hs0, Bool.false_eq_true, if_false]
    have hrec := firstHitN_hit sensor m n (t + step) step (by omega)
      (fun i hi => by
        rw [show t + step + step * i = t + step * (i + 1) by ring]
        exact h0 (i + 1) (by omega))
      (by
        rw [show t + step + step * m = t + step * (m + 1) by ring]
        exact hit)
    rw [hrec]
    congr 1
    ring

/-- Snooze loop: the first active sample resolves `taken`, provided it
lies within the budget (so that no earlier iteration hits the
total-timeout branch). -/
theorem snoozeLoop_taken (sensor : Nat → Bool) :
    ∀ (m n t : Nat), m < n →
      (∀ i, i < m → sensor (t + 100 * i) = false) →
      sensor (t + 100 * m) = true →
      t + 100 * m ≤ TOTAL_WINDOW →
      snoozeLoop sensor t n = .taken (t + 100 * m)
  | _, 0, _, hmn, _, _, _ => absurd hmn (by omega)
  | 0, n + 1, t, _, _, hit, _ => by
    have ht : sensor t = true := by simpa using hit
    simp [snoozeLoop, ht]
  | m + 1, n + 1, t, hmn, h0, hit, hb => by
    have hs0 : sensor t = false := by simpa using h0 0 (by omega)
    have hto : ¬ TOTAL_WINDOW ≤ t := by omega
    simp only [snoozeLoop, hs0, Bool.false_eq_true, if_false, if_neg hto]
    have hrec := snoozeLoop_taken sensor m n (t + 100) (by omega)
      (fun i hi => by
        rw [show t + 100 + 100 * i = t + 100 * (i + 1) by ring]
        exact h0 (i + 1) (by omega))
      (by
        rw [show t + 100 + 100 * m = t + 100 * (m + 1) by ring]
        exact hit)
      (by omega)
    rw [hrec]
    congr 1
    ring

/-- Snooze loop: all samples silent and the whole phase inside the
budget runs to completion. -/
theorem snoozeLoop_done (sensor : Nat → Bool) :
    ∀ (n t : Nat),
      (∀ i, i < n → sensor (t + 100 * i) = false) →
      t + 100 * n ≤ TOTAL_WINDOW →
      snoozeLoop sensor t n = .done (t + 100 * n)
  | 0, t, _, _ => by simp [snoozeLoop]
  | n + 1, t, h, hb => by
    have hs0 : sensor t = false := by simpa using h 0 (by omega)
    have hto : ¬ TOTAL_WINDOW ≤ t := by omega
    simp only [snoozeLoop, hs0, Bool.false_eq_true, if_false, if_neg hto]
    have hrec := snoozeLoop_done sensor n (t + 100)
      (fun i hi => by
        rw [show t + 100 + 100 * i = t + 100 * (i + 1) by ring]
        exact h (i + 1) (by omega))
      (by omega)
    rw [hrec]
    congr 1
    ring

/-- Snooze loop with a silent sensor: when the budget boundary falls on a
sample instant inside the phase, the loop exits through the
total-timeout branch exactly at `TOTAL_WINDOW`. -/
theorem snoozeLoop_reaches_timeout (sensor : Nat → Bool) :
    ∀ (n t : Nat),
      (∀ i, sensor (t + 100 * i) = false) →
      t ≤ TOTAL_WINDOW →
      (TOTAL_WINDOW - t) % 100 = 0 →
      TOTAL_WINDOW < t + 100 * n →
      snoozeLoop sensor t n = .timedOut TOTAL_WINDOW
  | 0, t, _, hle, _, hlt => absurd hlt (by omega)
  | n + 1, t, h, hle, hmod, hlt => by
    have hs0 : sensor t = false := by simpa using h 0
    by_cases hto : TOTAL_WINDOW ≤ t
    · have ht : t = TOTAL_WINDOW := by omega
      subst ht
      simp [snoozeLoop, hs0, hto]
    · simp only [snoozeLoop, hs0, Bool.false_eq_true, if_false, if_neg hto]
      exact snoozeLoop_reaches_timeout sensor n (t + 100)
        (fun i => by
          rw [show t + 100 + 100 * i = t + 100 * (i + 1) by ring]
          exact h (i + 1))
        (by omega) (by omega) (by omega)

/-- If a snooze phase runs to completion, it took exactly
`100 * n` milliseconds. -/
theorem snoozeLoop_done_time (sensor : Nat → Bool) :
    ∀ (n t t2 : Nat), snoozeLoop sensor t n = .done t2 → t2 = t + 100 * n
  | 0, t, t2, h => by
    have : t = t2 := by
      injection h
    omega
  | n + 1, t, t2, h => by
    unfold snoozeLoop at h
    by_cases hs : sensor t = true
    · rw [if_pos hs] at h
      exact absurd h (by simp)
    · rw [if_neg hs] at h
      by_cases hto : TOTAL_WINDOW ≤ t
      · rw [if_pos hto] at h
        exact absurd h (by simp)
      · rw [if_neg hto] at h
        have := snoozeLoop_done_time sensor n (t + 100) t2 h
        omega

/-- One unfolding of the outer session loop. -/
theorem outerLoop_succ (sensor : Nat → Bool) (fuel t : Nat) :
    outerLoop sensor (fuel + 1) t =
      if t < TOTAL_WINDOW then
        match firstHitN sensor t 10 ringSamples with
        | some u => (true, u)
        | none =>
          if TOTAL_WINDOW ≤ t + RING_DURATION then (false, t + RING_DURATION)
          else
            match snoozeLoop sensor (t + RING_DURATION) snoozeSamples with
            | .taken u => (true, u)
            | .timedOut u => (false, u)
            | .done t2 => outerLoop sensor fuel t2
      else (false, t) := rfl

/-- A fully silent cycle passes control to the next cycle 360 s later. -/
theorem outerLoop_pass (sensor : Nat → Bool) (fuel t : Nat)
    (ht : t < TOTAL_WINDOW)
    (hr : ∀ i, i < ringSamples → sensor (t + 10 * i) = false)
    (hs : ∀ i, i < snoozeSamples → sensor (t + RING_DURATION + 100 * i) = false)
    (hb : t + RING_DURATION + SNOOZE_DURATION ≤ TOTAL_WINDOW) :
    outerLoop sensor (fuel + 1) t =
      outerLoop sensor fuel (t + RING_DURATION + SNOOZE_DURATION) := by
  have hb' : t + RING_DURATION + 100 * snoozeSamples ≤ TOTAL_WINDOW := by
    rw [snoozeSamples_eq]
    rw [show (100:Nat) * 3000 = SNOOZE_DURATION from rfl]
    exact hb
  have hrb : ¬ TOTAL_WINDOW ≤ t + RING_DURATION := by
    unfold TOTAL_WINDOW RING_DURATION SNOOZE_DURATION at *
    omega
  rw [outerLoop_succ, if_pos ht]
  simp only [firstHitN_none sensor ringSamples t 10 hr, if_neg hrb,
    snoozeLoop_done sensor snoozeSamples (t + RING_DURATION) hs hb']
  rw [show t + RING_DURATION + 100 * snoozeSamples =
    t + RING_DURATION + SNOOZE_DURATION from rfl]

/-- The fuel parameter is irrelevant once it covers the remaining
cycles; in particular fuel 3 from `t = 0` computes the session. -/
theorem outerLoop_fuel_irrel (sensor : Nat → Bool) :
    ∀ (f1 f2 t : Nat),
      TOTAL_WINDOW ≤ t + (RING_DURATION + SNOOZE_DURATION) * f1 →
      TOTAL_WINDOW ≤ t + (RING_DURATION + SNOOZE_DURATION) * f2 →
      outerLoop sensor f1 t = outerLoop sensor f2 t
  | 0, 0, t, h1, h2 => rfl
  | 0, f2 + 1, t, h1, h2 => by
    have hto : ¬ t < TOTAL_WINDOW := by
      simp only [TOTAL_WINDOW, RING_DURATION, SNOOZE_DURATION] at h1 ⊢
      omega
    rw [outerLoop_succ, if_neg hto]
    rfl
  | f1 + 1, 0, t, h1, h2 => by
    have hto : ¬ t < TOTAL_WINDOW := by
      simp only [TOTAL_WINDOW, RING_DURATION, SNOOZE_DURATION] at h2 ⊢
      omega
    rw [outerLoop_succ, if_neg hto]
    rfl
  | f1 + 1, f2 + 1, t, h1, h2 => by
    rw [outerLoop_succ, outerLoop_succ]
    by_cases hto : t < TOTAL_WINDOW
    · rw [if_pos hto, if_pos hto]
      match firstHitN sensor t 10 ringSamples with
      | some u => rfl
      | none =>
        by_cases hrb : TOTAL_WINDOW ≤ t + RING_DURATION
        · rw [if_pos hrb, if_pos hrb]
        · rw [if_neg hrb, if_neg hrb]
          match hsn : snoozeLoop sensor (t + RING_DURATION) snoozeSamples with
          | .taken u => rfl
          | .timedOut u => rfl
          | .done t2 =>
            have ht2 := snoozeLoop_done_time sensor snoozeSamples (t + RING_DURATION) t2 hsn
            rw [snoozeSamples_eq] at ht2
            apply outerLoop_fuel_irrel sensor f1 f2 t2
            · unfold TOTAL_WINDOW RING_DURATION SNOOZE_DURATION at h1 ⊢
              subst ht2
              unfold RING_DURATION at *
              omega
            · unfold TOTAL_WINDOW RING_DURATION SNOOZE_DURATION at h2 ⊢
              subst ht2
              unfold RING_DURATION at *
              omega
    · rw [if_neg hto, if_neg hto]

/-! ## Theorems: Alarm Session Engine (C2, C3) -/

/-- C2: a session whose confirmation sensor is never active resolves
MISSED exactly at the hard budget `TOTAL_WINDOW` (= T+900 s relative to
session entry), which is at or after the budget and strictly within one
100 ms polling interval of it: the alert/silent cycles never overrun the
budget by more than one poll. -/
theorem session_unconfirmed_missed_at_budget (sensor : Nat → Bool)
    (hs : ∀ t, sensor t = false) :
    enterAlarmMode sensor = (Outcome.MISSED, TOTAL_WINDOW) ∧
    TOTAL_WINDOW ≤ (enterAlarmMode sensor).2 ∧
    (enterAlarmMode sensor).2 < TOTAL_WINDOW + 100 := by
  have e1 : outerLoop sensor 3 0 = outerLoop sensor 2 360000 :=
    outerLoop_pass sensor 2 0 (by decide) (fun i _ => hs _) (fun i _ => hs _)
      (by decide)
  have e2 : outerLoop sensor 2 360000 = outerLoop sensor 1 720000 :=
    outerLoop_pass sensor 1 360000 (by decide) (fun i _ => hs _) (fun i _ => hs _)
      (by decide)
  have hrn := firstHitN_none sensor ringSamples 720000 10 (fun i _ => hs _)
  have hsn := snoozeLoop_reaches_timeout sensor snoozeSamples
    (720000 + RING_DURATION) (fun i => hs _) (by decide) (by decide) (by decide)
  have e3 : outerLoop sensor 1 720000 = (false, TOTAL_WINDOW) := by
    rw [outerLoop_succ, if_pos (by decide)]
    simp only [hrn, hsn,
      if_neg (by decide : ¬ TOTAL_WINDOW ≤ 720000 + RING_DURATION)]
  have key : outerLoop sensor 3 0 = (false, TOTAL_WINDOW) := by
    rw [e1, e2, e3]
  have hmode : enterAlarmMode sensor = (Outcome.MISSED, TOTAL_WINDOW) := by
    unfold enterAlarmMode
    rw [key]
    simp
  refine ⟨hmode, ?_, ?_⟩ <;> (rw [hmode]; try decide)

/-- C2 witness: the constantly-inactive sensor. -/
theorem session_unconfirmed_missed_at_budget_witness :
    (∀ t, (fun _ => false : Nat → Bool) t = false) ∧
    enterAlarmMode (fun _ => false) = (Outcome.MISSED, TOTAL_WINDOW) :=
  ⟨fun _ => rfl,
   (session_unconfirmed_missed_at_budget (fun _ => false) (fun _ => rfl)).1⟩

/-- Sensor trace that is inactive before `t0` and active from `t0` on
(the pill box is opened at `t0` and stays open). -/
def stepSensor (t0 : Nat) : Nat → Bool := fun t => decide (t0 ≤ t)

theorem stepSensor_false (t0 u : Nat) (h : u < t0) : stepSensor t0 u = false := by
  simp only [stepSensor, decide_eq_false_iff_not]
  omega

theorem stepSensor_true (t0 u : Nat) (h : t0 ≤ u) : stepSensor t0 u = true := by
  simp only [stepSensor, decide_eq_true_eq]
  omega

/-- A ring-phase confirmation ends the whole session at the hit. -/
theorem outerLoop_ring_hit (sensor : Nat → Bool) (fuel t m : Nat)
    (ht : t < TOTAL_WINDOW) (hm : m < ringSamples)
    (h0 : ∀ i, i < m → sensor (t + 10 * i) = false)
    (hit : sensor (t + 10 * m) = true) :
    outerLoop sensor (fuel + 1) t = (true, t + 10 * m) := by
  rw [outerLoop_succ, if_pos ht]
  simp only [firstHitN_hit sensor m ringSamples t 10 hm h0 hit]

/-- A snooze-phase confirmation ends the whole session at the hit. -/
theorem outerLoop_snooze_hit (sensor : Nat → Bool) (fuel t m : Nat)
    (ht : t < TOTAL_WINDOW) (hm : m < snoozeSamples)
    (hr : ∀ i, i < ringSamples → sensor (t + 10 * i) = false)
    (hrb : ¬ TOTAL_WINDOW ≤ t + RING_DURATION)
    (h0 : ∀ i, i < m → sensor (t + RING_DURATION + 100 * i) = false)
    (hit : sensor (t + RING_DURATION + 100 * m) = true)
    (hb : t + RING_DURATION + 100 * m ≤ TOTAL_WINDOW) :
    outerLoop sensor (fuel + 1) t = (true, t + RING_DURATION + 100 * m) := by
  rw [outerLoop_succ, if_pos ht]
  simp only [firstHitN_none sensor ringSamples t 10 hr, if_neg hrb,
    snoozeLoop_taken sensor m snoozeSamples (t + RING_DURATION) hm h0 hit hb]

/-- A whole cycle before the step instant passes silently. -/
theorem pass_step (t0 fuel t : Nat) (ht : t < TOTAL_WINDOW)
    (hb : t + RING_DURATION + SNOOZE_DURATION ≤ TOTAL_WINDOW)
    (h0 : t + RING_DURATION + SNOOZE_DURATION ≤ t0) :
    outerLoop (stepSensor t0) (fuel + 1) t =
      outerLoop (stepSensor t0) fuel (t + RING_DURATION + SNOOZE_DURATION) := by
  apply outerLoop_pass _ _ _ ht _ _ hb
  · intro i hi
    apply stepSensor_false
    rw [ringSamples_eq] at hi
    simp only [RING_DURATION, SNOOZE_DURATION] at h0 ⊢
    omega
  · intro i hi
    apply stepSensor_false
    rw [snoozeSamples_eq] at hi
    simp only [RING_DURATION, SNOOZE_DURATION] at h0 ⊢
    omega

/-- C3: a confirmation observed at any sampling point of any ALERTING
phase (cycle `k` rings over `[360000k, 360000k + 60000)`, sampled every
10 ms) or of any MONITORING_SILENT phase (sampled every 100 ms; the
third cycle's monitoring is cut off by the budget at its sample 1200,
where the sensor is still read — and wins — before the timeout check)
resolves the session TAKEN at exactly that instant, bypassing every
remaining phase and the remaining budget. -/
theorem confirmation_resolves_taken_immediately (k m : Nat) :
    (k < 3 → m < ringSamples →
      enterAlarmMode (stepSensor (360000 * k + 10 * m)) =
        (.TAKEN, 360000 * k + 10 * m)) ∧
    (k < 2 → m < snoozeSamples →
      enterAlarmMode (stepSensor (360000 * k + RING_DURATION + 100 * m)) =
        (.TAKEN, 360000 * k + RING_DURATION + 100 * m)) ∧
    (m ≤ 1200 →
      enterAlarmMode (stepSensor (720000 + RING_DURATION + 100 * m)) =
        (.TAKEN, 720000 + RING_DURATION + 100 * m)) := by
  refine ⟨?_, ?_, ?_⟩
  · intro hk hm
    rw [ringSamples_eq] at hm
    interval_cases k
    · have h : outerLoop (stepSensor (360000 * 0 + 10 * m)) 3 0 =
          (true, 0 + 10 * m) :=
        outerLoop_ring_hit _ 2 0 m (by decide) (by rw [ringSamples_eq]; omega)
          (fun i hi => stepSensor_false _ _ (by omega))
          (stepSensor_true _ _ (by omega))
      unfold enterAlarmMode
      rw [h]
      simp
    · have p1 : outerLoop (stepSensor (360000 * 1 + 10 * m)) 3 0 =
          outerLoop (stepSensor (360000 * 1 + 10 * m)) 2 360000 :=
        pass_step _ 2 0 (by decide) (by decide)
          (by simp only [RING_DURATION, SNOOZE_DURATION]; omega)
      have h : outerLoop (stepSensor (360000 * 1 + 10 * m)) 2 360000 =
          (true, 360000 + 10 * m) :=
        outerLoop_ring_hit _ 1 360000 m (by decide) (by rw [ringSamples_eq]; omega)
          (fun i hi => stepSensor_false _ _ (by omega))
          (stepSensor_true _ _ (by omega))
      unfold enterAlarmMode
      rw [p1, h]
      simp
    · have p1 : outerLoop (stepSensor (360000 * 2 + 10 * m)) 3 0 =
          outerLoop (stepSensor (360000 * 2 + 10 * m)) 2 360000 :=
        pass_step _ 2 0 (by decide) (by decide)
          (by simp only [RING_DURATION, SNOOZE_DURATION]; omega)
      have p2 : outerLoop (stepSensor (360000 * 2 + 10 * m)) 2 360000 =
          outerLoop (stepSensor (360000 * 2 + 10 * m)) 1 720000 :=
        pass_step _ 1 360000 (by decide) (by decide)
          (by simp only [RING_DURATION, SNOOZE_DURATION]; omega)
      have h : outerLoop (stepSensor (360000 * 2 + 10 * m)) 1 720000 =
          (true, 720000 + 10 * m) :=
        outerLoop_ring_hit _ 0 720000 m (by decide) (by rw [ringSamples_eq]; omega)
          (fun i hi => stepSensor_false _ _ (by omega))
          (stepSensor_true _ _ (by omega))
      unfold enterAlarmMode
      rw [p1, p2, h]
      simp
  · intro hk hm
    rw [snoozeSamples_eq] at hm
    interval_cases k
    · have h : outerLoop (stepSensor (360000 * 0 + RING_DURATION + 100 * m)) 3 0 =
          (true, 0 + RING_DURATION + 100 * m) :=
        outerLoop_snooze_hit _ 2 0 m (by decide) (by rw [snoozeSamples_eq]; omega)
          (fun i hi => stepSensor_false _ _
            (by rw [ringSamples_eq] at hi; simp only [RING_DURATION]; omega))
          (by decide)
          (fun i hi => stepSensor_false _ _ (by simp only [RING_DURATION]; omega))
          (stepSensor_true _ _ (by simp only [RING_DURATION]; omega))
          (by simp only [RING_DURATION, TOTAL_WINDOW]; omega)
      unfold enterAlarmMode
      rw [h]
      simp
    · have p1 : outerLoop (stepSensor (360000 * 1 + RING_DURATION + 100 * m)) 3 0 =
          outerLoop (stepSensor (360000 * 1 + RING_DURATION + 100 * m)) 2 360000 :=
        pass_step _ 2 0 (by decide) (by decide)
          (by simp only [RING_DURATION, SNOOZE_DURATION]; omega)
      have h : outerLoop (stepSensor (360000 * 1 + RING_DURATION + 100 * m)) 2 360000 =
          (true, 360000 + RING_DURATION + 100 * m) :=
        outerLoop_snooze_hit _ 1 360000 m (by decide) (by rw [snoozeSamples_eq]; omega)
          (fun i hi => stepSensor_false _ _
            (by rw [ringSamples_eq] at hi; simp only [RING_DURATION]; omega))
          (by decide)
          (fun i hi => stepSensor_false _ _ (by simp only [RING_DURATION]; omega))
          (stepSensor_true _ _ (by simp only [RING_DURATION]; omega))
          (by simp only [RING_DURATION, TOTAL_WINDOW]; omega)
      unfold enterAlarmMode
      rw [p1, h]
      simp
  · intro hm
    have p1 : outerLoop (stepSensor (720000 + RING_DURATION + 100 * m)) 3 0 =
        outerLoop (stepSensor (720000 + RING_DURATION + 100 * m)) 2 360000 :=
      pass_step _ 2 0 (by decide) (by decide)
        (by simp only [RING_DURATION, SNOOZE_DURATION]; omega)
    have p2 : outerLoop (stepSensor (720000 + RING_DURATION + 100 * m)) 2 360000 =
        outerLoop (stepSensor (720000 + RING_DURATION + 100 * m)) 1 720000 :=
      pass_step _ 1 360000 (by decide) (by decide)
        (by simp only [RING_DURATION, SNOOZE_DURATION]; omega)
    have h : outerLoop (stepSensor (720000 + RING_DURATION + 100 * m)) 1 720000 =
        (true, 720000 + RING_DURATION + 100 * m) :=
      outerLoop_snooze_hit _ 0 720000 m (by decide) (by rw [snoozeSamples_eq]; omega)
        (fun i hi => stepSensor_false _ _
          (by rw [ringSamples_eq] at hi; simp only [RING_DURATION]; omega))
        (by decide)
        (fun i hi => stepSensor_false _ _ (by simp only [RING_DURATION]; omega))
        (stepSensor_true _ _ (by simp only [RING_DURATION]; omega))
        (by simp only [RING_DURATION, TOTAL_WINDOW]; omega)
    unfold enterAlarmMode
    rw [p1, p2, h]
    simp

/-- C3 witness: a confirmation 5 s into the first ALERTING phase yields
TAKEN at exactly T+5000 ms, one 70 s into the session (first
MONITORING_SILENT phase) yields TAKEN at T+70000 ms, and one at the very
budget boundary (third monitoring phase, sample 1200) yields TAKEN at
T+900000 ms. -/
theorem confirmation_resolves_taken_immediately_witness :
    ((0 : Nat) < 3 ∧ (500 : Nat) < ringSamples ∧
      enterAlarmMode (stepSensor (360000 * 0 + 10 * 500)) =
        (.TAKEN, 360000 * 0 + 10 * 500)) ∧
    ((0 : Nat) < 2 ∧ (100 : Nat) < snoozeSamples ∧
      enterAlarmMode (stepSensor (360000 * 0 + RING_DURATION + 100 * 100)) =
        (.TAKEN, 360000 * 0 + RING_DURATION + 100 * 100)) ∧
    ((1200 : Nat) ≤ 1200 ∧
      enterAlarmMode (stepSensor (720000 + RING_DURATION + 100 * 1200)) =
        (.TAKEN, 720000 + RING_DURATION + 100 * 1200)) :=
  ⟨⟨by decide, by decide,
    (confirmation_resolves_taken_immediately 0 500).1 (by decide) (by decide)⟩,
   ⟨by decide, by decide,
    (confirmation_resolves_taken_immediately 0 100).2.1 (by decide) (by decide)⟩,
   ⟨by decide,
    (confirmation_resolves_taken_immediately 0 1200).2.2 (by decide)⟩⟩

end Pilbx
